import Mathlib

/-!
A shallow embedding of the pitch-tracking and note-mapping pipeline of
`src/App.js` (browser-based guitar tuner).  Frequencies are modelled as
exact rationals; the cents computation (JavaScript `Math.log2`) is
modelled with the real-number logarithm, and `Math.floor` with `Int.floor`.
-/

/-- The fixed table of reference frequencies (`TUNING_FREQUENCIES`,
App.js lines 7-14), in object-key insertion order. -/
def TUNING_FREQUENCIES : List (String × ℚ) :=
  [("E2", 8241/100), ("A2", 110), ("D3", 14683/100),
   ("G3", 196), ("B3", 24694/100), ("E4", 32963/100)]

/-- `Object.keys(TUNING_FREQUENCIES)` (App.js line 22). -/
def noteNames : List String := TUNING_FREQUENCIES.map Prod.fst

/-- Key access `TUNING_FREQUENCIES[name]` (App.js lines 27 and 34); every
name the selection loop produces is a key of the table. -/
def lookupFreq (n : String) : ℚ := (TUNING_FREQUENCIES.lookup n).getD 0

/-- The comparison `diff < minDiff` where `minDiff` starts as `Infinity`
(modelled as `none`), App.js line 28. -/
def ltMinDiff (diff : ℚ) : Option ℚ → Bool
  | none => true
  | some m => decide (diff < m)

/-- One iteration of the `for (const note of noteNames)` loop
(App.js lines 26-32); the accumulator is `(closestNote, minDiff)`. -/
def selStep (f : ℚ) (acc : String × Option ℚ) (p : String × ℚ) : String × Option ℚ :=
  if ltMinDiff |f - p.2| acc.2 then (p.1, some |f - p.2|) else acc

/-- The selection loop over a list of (name, frequency) pairs. -/
def selLoop (f : ℚ) (l : List (String × ℚ)) (acc : String × Option ℚ) : String × Option ℚ :=
  l.foldl (selStep f) acc

/-- The value of `closestNote` after the loop (App.js lines 22-32): the
initial value is `noteNames[0]`, and only a strict improvement replaces it. -/
def closestNote (f : ℚ) : String :=
  (selLoop f TUNING_FREQUENCIES (noteNames.headD "--", none)).1

/-- `Math.floor(1200 * Math.log2(frequency / targetFreq))` (App.js line 35). -/
noncomputable def centsOf (f target : ℚ) : ℤ :=
  ⌊(1200 : ℝ) * Real.logb 2 ((f : ℝ) / (target : ℝ))⌋

/-- `getNoteAndCents` (App.js lines 17-38). -/
noncomputable def getNoteAndCents (f : ℚ) : String × ℤ :=
  if f ≤ 0 then ("--", 0)
  else (closestNote f, centsOf f (lookupFreq (closestNote f)))

/-- The note component of `getNoteAndCents`, separated out so that the
acquisition-loop state stays computable (the cents component needs the
real logarithm). -/
def getNote (f : ℚ) : String := if f ≤ 0 then "--" else closestNote f

/-- The cents component of `getNoteAndCents`. -/
noncomputable def getCents (f : ℚ) : ℤ :=
  if f ≤ 0 then 0 else centsOf f (lookupFreq (closestNote f))

/-- `smoothingRef.current` (App.js line 48). -/
def smoothingCoeff : ℚ := 7/10

/-- App.js lines 81-83: the smoothed pitch computed from `previousPitch`
and a raw estimate `f`. -/
def smoothNext (previousPitch f : ℚ) : ℚ :=
  if previousPitch = 0 then f
  else smoothingCoeff * previousPitch + (1 - smoothingCoeff) * f

/-- One chart data point (App.js lines 89-93 and 102-106). -/
structure HistoryEntry where
  time : ℕ
  frequency : ℚ
  note : String
deriving DecidableEq

/-- The mutable state the tick closure touches: `previousPitch`
(App.js line 113) and `chartDataRef.current` (line 53). -/
structure TickState where
  previousPitch : ℚ
  chartData : List HistoryEntry
deriving DecidableEq

/-- One tick of `updatePitch` (App.js lines 74-111) at wall-clock time `t`
on estimator outcome `est`, where `none` models the estimator returning
`null`.  The guard at line 80 is `frequency !== null` only, so a present
estimate takes the detection branch whatever its sign. -/
def tick (s : TickState) (t : ℕ) (est : Option ℚ) : TickState :=
  match est with
  | some f =>
      let smoothedPitch := smoothNext s.previousPitch f
      { previousPitch := smoothedPitch,
        chartData := s.chartData ++ [⟨t, smoothedPitch, getNote smoothedPitch⟩] }
  | none =>
      { previousPitch := 0,
        chartData := s.chartData ++ [⟨t, 0, "--"⟩] }

/-- The state at session start: `previousPitch = 0`, empty chart data. -/
def initState : TickState := { previousPitch := 0, chartData := [] }

/-- Run a sequence of ticks, each given as (timestamp, estimator outcome). -/
def runTicks (s : TickState) (l : List (ℕ × Option ℚ)) : TickState :=
  l.foldl (fun s p => tick s p.1 p.2) s

/-- The single entry one tick appends to the chart data. -/
def entryOf (previousPitch : ℚ) (t : ℕ) (est : Option ℚ) : HistoryEntry :=
  match est with
  | some f => ⟨t, smoothNext previousPitch f, getNote (smoothNext previousPitch f)⟩
  | none => ⟨t, 0, "--"⟩

/-- The value of `previousPitch` after one tick. -/
def nextPrev (previousPitch : ℚ) (est : Option ℚ) : ℚ :=
  match est with
  | some f => smoothNext previousPitch f
  | none => 0

/-- The entries a run of ticks appends, starting from a given
`previousPitch`. -/
def trace (previousPitch : ℚ) : List (ℕ × Option ℚ) → List HistoryEntry
  | [] => []
  | p :: rest => entryOf previousPitch p.1 p.2 :: trace (nextPrev previousPitch p.2) rest

/-- Outcome of the call `pitchFinderRef.current(buffer)` (App.js line 78):
either a returned value (`null` or a frequency) or a thrown exception. -/
inductive EstOutcome
  | val : Option ℚ → EstOutcome
  | exc : EstOutcome

/-- One tick of `updatePitch` with exception propagation made explicit:
`updatePitch` contains no `try`/`catch`, so a throw at line 78 leaves the
tick before any state update (lines 80-109) and before the rescheduling
call `requestAnimationFrame(updatePitch)` at line 110.  The boolean
records whether the loop rescheduled itself for the next tick. -/
def tickWithExc (s : TickState) (t : ℕ) (o : EstOutcome) : Except Unit (TickState × Bool) :=
  match o with
  | .val e => Except.ok (tick s t e, true)
  | .exc => Except.error ()

/-- A releasable resource: `throwsOnRelease` says whether its release call
throws, `released` whether a release call has succeeded on it. -/
structure Resource where
  throwsOnRelease : Bool
  released : Bool
deriving DecidableEq

/-- The five refs the effect cleanup guards (App.js lines 123-140):
`audioSourceRef`, `analyserRef`, `audioContextRef`, `animationFrameRef`
and `playContextRef`; `none` models a `null` ref. -/
structure SessionRefs where
  audioSource : Option Resource
  analyser : Option Resource
  audioContext : Option Resource
  animationFrame : Option Resource
  playContext : Option Resource
deriving DecidableEq

/-- One guarded release step `if (ref.current) { ref.current.release() }`:
skipped when the ref is `null`; otherwise the release either throws
(second component `true`) or marks the resource released.  The cleanup
never nulls the refs, so the ref keeps pointing at its resource. -/
def relStep (o : Option Resource) : Option Resource × Bool :=
  match o with
  | none => (none, false)
  | some r =>
      if r.throwsOnRelease then (some r, true)
      else (some { r with released := true }, false)

/-- The cleanup function returned by the effect (App.js lines 123-140):
five guarded release steps run in sequence with no `try`/`catch`, so a
throw in one step aborts all remaining steps.  Returns the refs after the
run together with whether an exception escaped. -/
def cleanup (s : SessionRefs) : SessionRefs × Bool :=
  let (a, ea) := relStep s.audioSource
  if ea then ({ s with audioSource := a }, true) else
  let (b, eb) := relStep s.analyser
  if eb then ({ s with audioSource := a, analyser := b }, true) else
  let (c, ec) := relStep s.audioContext
  if ec then ({ s with audioSource := a, analyser := b, audioContext := c }, true) else
  let (d, ed) := relStep s.animationFrame
  if ed then
    ({ s with audioSource := a, analyser := b, audioContext := c, animationFrame := d }, true)
  else
  let (e, ee) := relStep s.playContext
  (⟨a, b, c, d, e⟩, ee)

/-- The tone-player state: the `playing` React state (App.js line 50),
plus ghost counters for the oscillators currently sounding and the tones
started so far. -/
structure PlayerState where
  playing : Bool
  active : ℕ
  started : ℕ
deriving DecidableEq

/-- `playFrequency` (App.js lines 181-208): guarded by `if (!playing)`;
when idle it starts one oscillator and sets `playing` to true. -/
def playFrequency (s : PlayerState) : PlayerState :=
  if s.playing then s
  else { playing := true, active := s.active + 1, started := s.started + 1 }

/-- The nested timeout callback (App.js lines 196-206): stops the
oscillator and clears `playing`. -/
def stopTone (s : PlayerState) : PlayerState :=
  { playing := false, active := s.active - 1, started := s.started }

/-- Events affecting the tone player. -/
inductive PlayerEvent
  | play
  | stop

/-- Step function of the tone-player transition system. -/
def playerStep (s : PlayerState) (e : PlayerEvent) : PlayerState :=
  match e with
  | .play => playFrequency s
  | .stop => stopTone s

/-- Run the tone player over a sequence of events. -/
def playerRun (s : PlayerState) (l : List PlayerEvent) : PlayerState :=
  l.foldl playerStep s

/-- The tone-player invariant: exactly one oscillator is sounding while
`playing` is set, none otherwise. -/
def PlayerInv (s : PlayerState) : Prop :=
  s.active = if s.playing then 1 else 0

/-- Evaluation lemmas used below: the selection loop on concrete inputs. -/
theorem lookupFreq_eq (p : String × ℚ) (hp : p ∈ TUNING_FREQUENCIES) :
    lookupFreq p.1 = p.2 := by
  fin_cases hp <;> rfl

/-- Behaviour of the selection loop started with a finite `minDiff`:
either no element strictly improves on `m` and the accumulator survives,
or the result is the first element strictly better than `m` that no later
element strictly beats and that every earlier element strictly exceeds. -/
theorem selLoop_some (f : ℚ) (l : List (String × ℚ)) : ∀ (c : String) (m : ℚ),
    ((∀ q ∈ l, m ≤ |f - q.2|) ∧ selLoop f l (c, some m) = (c, some m)) ∨
    (∃ l₁ p l₂, l = l₁ ++ p :: l₂ ∧ |f - p.2| < m ∧
      (∀ q ∈ l₁, |f - p.2| < |f - q.2|) ∧ (∀ q ∈ l₂, |f - p.2| ≤ |f - q.2|) ∧
      selLoop f l (c, some m) = (p.1, some |f - p.2|)) := by
  induction l with
  | nil => intro c m; exact Or.inl ⟨by simp, rfl⟩
  | cons p rest ih =>
      intro c m
      by_cases h : |f - p.2| < m
      · have step : selLoop f (p :: rest) (c, some m) = selLoop f rest (p.1, some |f - p.2|) := by
          simp [selLoop, selStep, ltMinDiff, h]
        rcases ih p.1 |f - p.2| with ⟨hall, heq⟩ | ⟨l₁, q, l₂, hsplit, hlt, h1, h2, heq⟩
        · exact Or.inr ⟨[], p, rest, rfl, h, by simp, hall, by rw [step, heq]⟩
        · refine Or.inr ⟨p :: l₁, q, l₂, by rw [hsplit]; rfl, lt_trans hlt h, ?_, h2,
            by rw [step, heq]⟩
          intro r hr
          rcases List.mem_cons.mp hr with hr | hr
          · rw [hr]; exact hlt
          · exact h1 r hr
      · have step : selLoop f (p :: rest) (c, some m) = selLoop f rest (c, some m) := by
          simp [selLoop, selStep, ltMinDiff, h]
        rcases ih c m with ⟨hall, heq⟩ | ⟨l₁, q, l₂, hsplit, hlt, h1, h2, heq⟩
        · refine Or.inl ⟨?_, by rw [step, heq]⟩
          intro r hr
          rcases List.mem_cons.mp hr with hr | hr
          · rw [hr]; exact le_of_not_lt h
          · exact hall r hr
        · refine Or.inr ⟨p :: l₁, q, l₂, by rw [hsplit]; rfl, hlt, ?_, h2, by rw [step, heq]⟩
          intro r hr
          rcases List.mem_cons.mp hr with hr | hr
          · rw [hr]; exact lt_of_lt_of_le hlt (le_of_not_lt h)
          · exact h1 r hr

/-- `closestNote f` is the enumeration-first minimizer of `|f - ref|` over
the reference table: the table splits as `l₁ ++ p :: l₂` with the chosen
entry `p` strictly closer than every earlier entry and at least as close
as every later entry. -/
theorem closestNote_firstMin (f : ℚ) : ∃ l₁ p l₂,
    TUNING_FREQUENCIES = l₁ ++ p :: l₂ ∧ closestNote f = p.1 ∧
    (∀ q ∈ l₁, |f - p.2| < |f - q.2|) ∧
    (∀ q ∈ l₂, |f - p.2| ≤ |f - q.2|) := by
  have step : selLoop f TUNING_FREQUENCIES (noteNames.headD "--", none) =
      selLoop f [("A2", (110 : ℚ)), ("D3", 14683/100), ("G3", 196),
        ("B3", 24694/100), ("E4", 32963/100)] ("E2", some |f - (8241/100 : ℚ)|) := by
    simp [selLoop, selStep, ltMinDiff, TUNING_FREQUENCIES]
  rcases selLoop_some f [("A2", (110 : ℚ)), ("D3", 14683/100), ("G3", 196),
      ("B3", 24694/100), ("E4", 32963/100)] "E2" |f - (8241/100 : ℚ)| with
    ⟨hall, heq⟩ | ⟨l₁, q, l₂, hsplit, hlt, h1, h2, heq⟩
  · refine ⟨[], ("E2", (8241/100 : ℚ)), [("A2", (110 : ℚ)), ("D3", 14683/100), ("G3", 196),
      ("B3", 24694/100), ("E4", 32963/100)], rfl, ?_, by simp, hall⟩
    unfold closestNote
    rw [step, heq]
  · refine ⟨("E2", (8241/100 : ℚ)) :: l₁, q, l₂, ?_, ?_, ?_, h2⟩
    · show TUNING_FREQUENCIES = ("E2", (8241/100 : ℚ)) :: (l₁ ++ q :: l₂)
      rw [← hsplit]; rfl
    · unfold closestNote
      rw [step, heq]
    · intro r hr
      rcases List.mem_cons.mp hr with hr | hr
      · rw [hr]; exact hlt
      · exact h1 r hr

/-- The selected entry: `closestNote f` is a key of the table, looking it
up recovers the entry's frequency, and that frequency is positive. -/
theorem closestNote_lookup (f : ℚ) : ∃ p ∈ TUNING_FREQUENCIES,
    closestNote f = p.1 ∧ lookupFreq (closestNote f) = p.2 ∧ 0 < p.2 := by
  obtain ⟨l₁, p, l₂, hsplit, hname, _, _⟩ := closestNote_firstMin f
  have hp : p ∈ TUNING_FREQUENCIES := by
    rw [hsplit]; exact List.mem_append_right _ (List.mem_cons_self _ _)
  refine ⟨p, hp, hname, ?_, ?_⟩
  · rw [hname]; exact lookupFreq_eq p hp
  · fin_cases hp <;> norm_num

/-- The reference frequency the classifier divides by is positive. -/
theorem lookupFreq_closest_pos (f : ℚ) : 0 < lookupFreq (closestNote f) := by
  obtain ⟨p, _, _, hl, hpos⟩ := closestNote_lookup f
  rw [hl]; exact hpos

/-- Claim C1: for every frequency `f > 0`, `closestNote` picks, among the six
fixed references, the entry minimizing `|f - referenceFrequency|`, with ties
resolved to the first candidate in enumeration order (the comparison is
strict, so every earlier candidate is strictly farther), for every positive
frequency including ones far outside the guitar range. -/
theorem c1_nearest_first_min (f : ℚ) (_hf : 0 < f) : ∃ l₁ p l₂,
    TUNING_FREQUENCIES = l₁ ++ p :: l₂ ∧
    closestNote f = p.1 ∧ lookupFreq (closestNote f) = p.2 ∧
    (∀ q ∈ TUNING_FREQUENCIES, |f - p.2| ≤ |f - q.2|) ∧
    (∀ q ∈ l₁, |f - p.2| < |f - q.2|) ∧
    (∀ q ∈ l₂, |f - p.2| ≤ |f - q.2|) := by
  obtain ⟨l₁, p, l₂, hsplit, hname, h1, h2⟩ := closestNote_firstMin f
  have hp : p ∈ TUNING_FREQUENCIES := by
    rw [hsplit]; exact List.mem_append_right _ (List.mem_cons_self _ _)
  refine ⟨l₁, p, l₂, hsplit, hname, by rw [hname]; exact lookupFreq_eq p hp, ?_, h1, h2⟩
  intro q hq
  rw [hsplit] at hq
  rcases List.mem_append.mp hq with hq | hq
  · exact (h1 q hq).le
  · rcases List.mem_cons.mp hq with hq | hq
    · rw [hq]
    · exact h2 q hq

/-- Witness for C1: the claim instantiated at the concrete frequency 110. -/
theorem c1_nearest_first_min_witness :
    0 < (110 : ℚ) ∧ ∃ l₁ p l₂,
      TUNING_FREQUENCIES = l₁ ++ p :: l₂ ∧
      closestNote 110 = p.1 ∧ lookupFreq (closestNote 110) = p.2 ∧
      (∀ q ∈ TUNING_FREQUENCIES, |(110 : ℚ) - p.2| ≤ |(110 : ℚ) - q.2|) ∧
      (∀ q ∈ l₁, |(110 : ℚ) - p.2| < |(110 : ℚ) - q.2|) ∧
      (∀ q ∈ l₂, |(110 : ℚ) - p.2| ≤ |(110 : ℚ) - q.2|) :=
  ⟨by norm_num, c1_nearest_first_min 110 (by norm_num)⟩

/-- An exact reference match has zero cents deviation. -/
theorem centsOf_self (f : ℚ) (hf : f ≠ 0) : centsOf f f = 0 := by
  unfold centsOf
  rw [div_self (by exact_mod_cast hf), Real.logb_one, mul_zero, Int.floor_zero]

/-- The selection loop evaluated at 110 Hz. -/
theorem closestNote_at_110 : closestNote 110 = "A2" := by
  norm_num [closestNote, selLoop, selStep, ltMinDiff, TUNING_FREQUENCIES, noteNames,
    abs_of_nonneg, abs_of_nonpos, List.foldl]

/-- Claim C2: the classifier's full postcondition.  Inputs `f ≤ 0` give the
sentinel `("--", 0)` (a defined state, not an error); inputs `f > 0` give
`cents = floor(1200 * log2 (f / referenceFrequency))` as a signed integer;
and the exact reference match 110 Hz classifies as A2 with zero cents. -/
theorem c2_classify_postcondition :
    (∀ f : ℚ, f ≤ 0 → getNoteAndCents f = ("--", 0)) ∧
    (∀ f : ℚ, 0 < f → (getNoteAndCents f).2 =
      ⌊(1200 : ℝ) * Real.logb 2 ((f : ℝ) / ((lookupFreq (closestNote f) : ℚ) : ℝ))⌋) ∧
    getNoteAndCents 110 = ("A2", 0) := by
  refine ⟨?_, ?_, ?_⟩
  · intro f hf; simp [getNoteAndCents, hf]
  · intro f hf; simp [getNoteAndCents, not_le.mpr hf, centsOf]
  · have h2 : lookupFreq "A2" = 110 := rfl
    unfold getNoteAndCents
    rw [if_neg (by norm_num), closestNote_at_110, h2, centsOf_self 110 (by norm_num)]

/-- Claim C3: the smoothing filter.  With no prior value (`previous = 0`)
the raw estimate passes through; otherwise the result is
`α * previous + (1 - α) * f` with `α = 0.7`; in particular
`previous = 100, f = 200` smooths to exactly 130. -/
theorem c3_smoothing_formula :
    (∀ f : ℚ, smoothNext 0 f = f) ∧
    (∀ prev f : ℚ, prev ≠ 0 →
      smoothNext prev f = smoothingCoeff * prev + (1 - smoothingCoeff) * f) ∧
    smoothingCoeff = 7/10 ∧
    smoothNext 100 200 = 130 := by
  refine ⟨fun f => by simp [smoothNext], fun prev f h => by simp [smoothNext, h], rfl, ?_⟩
  norm_num [smoothNext, smoothingCoeff]

/-- Counterexample to C4 as stated: on a tick whose estimate is present but
negative (-10 Hz) with previous smoothed value 100, the smoothing state is
updated to 0.7 * 100 + 0.3 * (-10) = 67, not reset to 0: the code's guard
at App.js line 80 tests only `frequency !== null`. -/
theorem c4_counterexample :
    (tick { previousPitch := 100, chartData := [] } 0 (some (-10))).previousPitch = 67 ∧
    (67 : ℚ) ≠ 0 := by
  constructor
  · norm_num [tick, smoothNext, smoothingCoeff]
  · norm_num

/-- Claim C4 as amended: the smoothing state is reset to 0 exactly on ticks
whose estimate is absent (the estimator returned `null`); every tick with a
present estimate — including estimates ≤ 0 — takes the detection branch and
updates the state to the smoothed value. -/
theorem c4_reset_only_on_null :
    (∀ (s : TickState) (t : ℕ), (tick s t none).previousPitch = 0) ∧
    (∀ (s : TickState) (t : ℕ) (f : ℚ),
      (tick s t (some f)).previousPitch = smoothNext s.previousPitch f) :=
  ⟨fun _ _ => rfl, fun _ _ _ => rfl⟩

/-- C5: what a tick-local exception actually does.  `updatePitch` has no
`try`/`catch`, so a throw from the frequency estimator (App.js line 78)
propagates out of the callback: the tick appends no history entry, updates
no state, and never reaches the `requestAnimationFrame` call at line 110,
so the loop stops rescheduling instead of degrading to "no pitch detected". -/
theorem c5_exception_propagates :
    tickWithExc { previousPitch := 100, chartData := [] } 0 EstOutcome.exc =
      Except.error () ∧
    (∀ (s : TickState) (t : ℕ), tickWithExc s t EstOutcome.exc = Except.error ()) ∧
    (∀ (s : TickState) (t : ℕ) (e : Option ℚ),
      tickWithExc s t (EstOutcome.val e) = Except.ok (tick s t e, true)) :=
  ⟨rfl, fun _ _ => rfl, fun _ _ _ => rfl⟩

/-- Each tick appends exactly one entry to the chart data. -/
theorem tick_chartData (s : TickState) (t : ℕ) (e : Option ℚ) :
    (tick s t e).chartData = s.chartData ++ [entryOf s.previousPitch t e] := by
  cases e <;> rfl

/-- The smoothing state after one tick. -/
theorem tick_previousPitch (s : TickState) (t : ℕ) (e : Option ℚ) :
    (tick s t e).previousPitch = nextPrev s.previousPitch e := by
  cases e <;> rfl

/-- The timestamp of the appended entry is the tick's timestamp. -/
theorem entryOf_time (prev : ℚ) (t : ℕ) (e : Option ℚ) :
    (entryOf prev t e).time = t := by
  cases e <;> rfl

/-- Running a tick sequence only ever appends: the resulting chart data is
the starting chart data followed by the run's trace. -/
theorem runTicks_chartData (l : List (ℕ × Option ℚ)) : ∀ s : TickState,
    (runTicks s l).chartData = s.chartData ++ trace s.previousPitch l := by
  induction l with
  | nil => intro s; simp [runTicks, trace]
  | cons p rest ih =>
      intro s
      show (runTicks (tick s p.1 p.2) rest).chartData = _
      rw [ih, tick_chartData, tick_previousPitch]
      simp [trace]

/-- The trace's timestamps are the input timestamps, in order. -/
theorem trace_times (l : List (ℕ × Option ℚ)) : ∀ prev : ℚ,
    (trace prev l).map HistoryEntry.time = l.map Prod.fst := by
  induction l with
  | nil => intro prev; rfl
  | cons p rest ih => intro prev; simp [trace, entryOf_time, ih]

/-- Runs compose: appending tick sequences runs them in succession. -/
theorem runTicks_append (s : TickState) (l₁ l₂ : List (ℕ × Option ℚ)) :
    runTicks s (l₁ ++ l₂) = runTicks (runTicks s l₁) l₂ := by
  simp [runTicks]

/-- Claim C7: the history is append-only.  After any sequence of N ticks the
chart data has exactly N entries, the i-th carrying the i-th tick's
timestamp (so timestamps are in insertion order and non-decreasing whenever
the clock is), each tick appends exactly one entry and mutates none, a tick
with no detection appends the entry (t, 0, "--"), and the history of any
prefix of the run is a prefix of the final history. -/
theorem c7_history_append_only (l : List (ℕ × Option ℚ))
    (hsort : (l.map Prod.fst).Sorted (· ≤ ·)) :
    (runTicks initState l).chartData.length = l.length ∧
    (runTicks initState l).chartData.map HistoryEntry.time = l.map Prod.fst ∧
    ((runTicks initState l).chartData.map HistoryEntry.time).Sorted (· ≤ ·) ∧
    (∀ (s : TickState) (t : ℕ) (e : Option ℚ),
      (tick s t e).chartData = s.chartData ++ [entryOf s.previousPitch t e]) ∧
    (∀ (s : TickState) (t : ℕ),
      (tick s t none).chartData = s.chartData ++ [⟨t, 0, "--"⟩]) ∧
    (∀ l₁ l₂, l = l₁ ++ l₂ → ∃ added,
      (runTicks initState l).chartData = (runTicks initState l₁).chartData ++ added) := by
  have hmap : (runTicks initState l).chartData.map HistoryEntry.time = l.map Prod.fst := by
    rw [runTicks_chartData]
    simp [initState, trace_times]
  refine ⟨?_, hmap, ?_, tick_chartData, fun s t => tick_chartData s t none, ?_⟩
  · have := congrArg List.length hmap
    simpa using this
  · rw [hmap]; exact hsort
  · intro l₁ l₂ hsplit
    refine ⟨trace (runTicks initState l₁).previousPitch l₂, ?_⟩
    rw [hsplit, runTicks_append, runTicks_chartData]

/-- A concrete three-tick input sequence used to witness C7. -/
def c7ticks : List (ℕ × Option ℚ) := [(1, some 100), (2, none), (3, some (8241/100))]

/-- Witness for C7: the claim instantiated on a concrete three-tick run. -/
theorem c7_history_append_only_witness :
    ((c7ticks.map Prod.fst).Sorted (· ≤ ·)) ∧
    ((runTicks initState c7ticks).chartData.length = c7ticks.length ∧
     (runTicks initState c7ticks).chartData.map HistoryEntry.time = c7ticks.map Prod.fst ∧
     ((runTicks initState c7ticks).chartData.map HistoryEntry.time).Sorted (· ≤ ·) ∧
     (∀ (s : TickState) (t : ℕ) (e : Option ℚ),
       (tick s t e).chartData = s.chartData ++ [entryOf s.previousPitch t e]) ∧
     (∀ (s : TickState) (t : ℕ),
       (tick s t none).chartData = s.chartData ++ [⟨t, 0, "--"⟩]) ∧
     (∀ l₁ l₂, c7ticks = l₁ ++ l₂ → ∃ added,
       (runTicks initState c7ticks).chartData =
         (runTicks initState l₁).chartData ++ added)) := by
  have hs : (c7ticks.map Prod.fst).Sorted (· ≤ ·) := by decide
  exact ⟨hs, c7_history_append_only c7ticks hs⟩

/-- A present resource whose release succeeded, keeping its static flag. -/
def releasedOpt : Option Resource → Option Resource
  | none => none
  | some r => some { r with released := true }

/-- All five refs after a fully successful cleanup pass. -/
def releaseAll (s : SessionRefs) : SessionRefs :=
  ⟨releasedOpt s.audioSource, releasedOpt s.analyser, releasedOpt s.audioContext,
   releasedOpt s.animationFrame, releasedOpt s.playContext⟩

/-- The resource held by a ref (if any) releases without throwing. -/
def noThrowOpt (o : Option Resource) : Prop :=
  ∀ r, o = some r → r.throwsOnRelease = false

/-- No release operation of the session throws. -/
def NoThrow (s : SessionRefs) : Prop :=
  noThrowOpt s.audioSource ∧ noThrowOpt s.analyser ∧ noThrowOpt s.audioContext ∧
  noThrowOpt s.animationFrame ∧ noThrowOpt s.playContext

theorem relStep_noThrow (o : Option Resource) (h : noThrowOpt o) :
    relStep o = (releasedOpt o, false) := by
  cases o with
  | none => rfl
  | some r =>
      have hr := h r rfl
      simp [relStep, releasedOpt, hr]

theorem releasedOpt_idem (o : Option Resource) :
    releasedOpt (releasedOpt o) = releasedOpt o := by
  cases o <;> rfl

theorem noThrowOpt_released (o : Option Resource) (h : noThrowOpt o) :
    noThrowOpt (releasedOpt o) := by
  cases o with
  | none => intro r hr; cases hr
  | some r =>
      intro r' hr'
      have : r' = { r with released := true } := by
        have h2 := hr'
        simp [releasedOpt] at h2
        exact h2.symm
      rw [this]
      exact h r rfl

/-- Counterexample to C6 as stated: with the audio-source disconnect
throwing and the analyser present and releasable, the cleanup lets the
exception escape and never attempts the analyser release step: the steps
are guarded against absence only, not against failure of a prior step. -/
theorem c6_counterexample :
    (cleanup ⟨some ⟨true, false⟩, some ⟨false, false⟩, none, none, none⟩).2 = true ∧
    (cleanup ⟨some ⟨true, false⟩, some ⟨false, false⟩, none, none, none⟩).1.analyser =
      some ⟨false, false⟩ := by
  constructor <;> rfl

/-- Claim C6 as amended: every release step is guarded against an absent
(null) ref, so teardown invoked before the session ever became active is a
throw-free no-op, and — provided no release operation itself throws —
teardown releases every present resource, raises no error, and is
idempotent (a second invocation reproduces the same final state and no
error).  The steps are not isolated against failures: a throwing release
skips all later steps (see the counterexample). -/
theorem c6_teardown_guarded :
    cleanup ⟨none, none, none, none, none⟩ = (⟨none, none, none, none, none⟩, false) ∧
    (∀ s : SessionRefs, NoThrow s →
      cleanup s = (releaseAll s, false) ∧
      cleanup (releaseAll s) = (releaseAll s, false)) := by
  constructor
  · rfl
  · intro s hs
    obtain ⟨h1, h2, h3, h4, h5⟩ := hs
    have e1 := relStep_noThrow _ h1
    have e2 := relStep_noThrow _ h2
    have e3 := relStep_noThrow _ h3
    have e4 := relStep_noThrow _ h4
    have e5 := relStep_noThrow _ h5
    refine ⟨by simp [cleanup, e1, e2, e3, e4, e5, releaseAll], ?_⟩
    have e1' : relStep (releasedOpt s.audioSource) = (releasedOpt s.audioSource, false) := by
      rw [relStep_noThrow _ (noThrowOpt_released _ h1), releasedOpt_idem]
    have e2' : relStep (releasedOpt s.analyser) = (releasedOpt s.analyser, false) := by
      rw [relStep_noThrow _ (noThrowOpt_released _ h2), releasedOpt_idem]
    have e3' : relStep (releasedOpt s.audioContext) = (releasedOpt s.audioContext, false) := by
      rw [relStep_noThrow _ (noThrowOpt_released _ h3), releasedOpt_idem]
    have e4' : relStep (releasedOpt s.animationFrame) =
        (releasedOpt s.animationFrame, false) := by
      rw [relStep_noThrow _ (noThrowOpt_released _ h4), releasedOpt_idem]
    have e5' : relStep (releasedOpt s.playContext) = (releasedOpt s.playContext, false) := by
      rw [relStep_noThrow _ (noThrowOpt_released _ h5), releasedOpt_idem]
    simp [cleanup, releaseAll, e1', e2', e3', e4', e5']

/-- Claim C8: the tone player is single-flight.  The invariant "one
oscillator sounding while `playing`, none otherwise" is preserved by every
event, so at most one playback is ever in progress; a `play` call while
playing is a no-op (not queued, not an error); and two back-to-back play
calls from idle start exactly one tone. -/
theorem c8_tone_single_flight :
    (∀ (s : PlayerState) (e : PlayerEvent), PlayerInv s → PlayerInv (playerStep s e)) ∧
    (∀ s : PlayerState, PlayerInv s → s.active ≤ 1) ∧
    (∀ s : PlayerState, s.playing = true → playFrequency s = s) ∧
    playerRun { playing := false, active := 0, started := 0 }
      [PlayerEvent.play, PlayerEvent.play] =
      { playing := true, active := 1, started := 1 } := by
  refine ⟨?_, ?_, ?_, rfl⟩
  · intro s e hs
    cases e <;> cases hp : s.playing <;>
      simp [playerStep, playFrequency, stopTone, PlayerInv, hp] at hs ⊢ <;> omega
  · intro s hs
    cases hp : s.playing <;> simp [PlayerInv, hp] at hs <;> omega
  · intro s h
    unfold playFrequency
    rw [h]
    simp

/-- The zero-cents band of the floor-of-log cents formula: the floor is 0
exactly when the input sits in the half-open band from the reference up to
(but excluding) one cent sharp of it. -/
theorem floor_cents_eq_zero_iff (x ref : ℝ) (hx : 0 < x) (href : 0 < ref) :
    ⌊(1200 : ℝ) * Real.logb 2 (x / ref)⌋ = 0 ↔
      ref ≤ x ∧ x < ref * (2 : ℝ) ^ ((1 : ℝ) / 1200) := by
  have hr : 0 < x / ref := div_pos hx href
  rw [Int.floor_eq_zero_iff, Set.mem_Ico]
  constructor
  · rintro ⟨h0, h1⟩
    constructor
    · have hlb : (0 : ℝ) ≤ Real.logb 2 (x / ref) := by linarith
      exact (one_le_div href).mp ((Real.logb_nonneg_iff one_lt_two hr).mp hlb)
    · have hlb : Real.logb 2 (x / ref) < 1 / 1200 := by linarith
      have h2 := (Real.logb_lt_iff_lt_rpow one_lt_two hr).mp hlb
      have h3 := (div_lt_iff₀ href).mp h2
      linarith [h3, mul_comm ((2 : ℝ) ^ ((1 : ℝ) / 1200)) ref]
  · rintro ⟨h0, h1⟩
    have h2 : 1 ≤ x / ref := (one_le_div href).mpr h0
    have h3 : x / ref < (2 : ℝ) ^ ((1 : ℝ) / 1200) := by
      rw [div_lt_iff₀ href]
      linarith [mul_comm ((2 : ℝ) ^ ((1 : ℝ) / 1200)) ref]
    have h4 := (Real.logb_nonneg_iff one_lt_two hr).mpr h2
    have h5 := (Real.logb_lt_iff_lt_rpow one_lt_two hr).mpr h3
    constructor <;> linarith

/-- Inputs strictly inside one cent flat of the reference floor to -1. -/
theorem floor_cents_eq_neg_one (x ref : ℝ) (hx : 0 < x) (href : 0 < ref)
    (hlo : ref * (2 : ℝ) ^ (-(1 : ℝ) / 1200) < x) (hhi : x < ref) :
    ⌊(1200 : ℝ) * Real.logb 2 (x / ref)⌋ = -1 := by
  have hr : 0 < x / ref := div_pos hx href
  rw [Int.floor_eq_iff]
  have h1 : x / ref < 1 := (div_lt_one href).mpr hhi
  have hneg : Real.logb 2 (x / ref) < 0 := Real.logb_neg one_lt_two hr h1
  have h2 : (2 : ℝ) ^ (-(1 : ℝ) / 1200) < x / ref := by
    rw [lt_div_iff₀ href]
    linarith [mul_comm ((2 : ℝ) ^ (-(1 : ℝ) / 1200)) ref]
  have h3 := (Real.lt_logb_iff_rpow_lt one_lt_two hr).mpr h2
  constructor
  · push_cast
    linarith
  · push_cast
    linarith

/-- The quantitative flat-side bound used for the end-to-end scenario: if
`x` is at most `ref` but within a factor controlled by
`400 (ref - x) ≤ (log 2 lower bound) x`, the cents floor lies in [-3, 0]. -/
theorem floor_cents_band_neg3 (x ref : ℝ) (hx : 0 < x) (href : 0 < ref)
    (hle : x ≤ ref) (hclose : 400 * (ref - x) ≤ (6931471803 / 10000000000 : ℝ) * x) :
    -3 ≤ ⌊(1200 : ℝ) * Real.logb 2 (x / ref)⌋ ∧
      ⌊(1200 : ℝ) * Real.logb 2 (x / ref)⌋ ≤ 0 := by
  have hr : 0 < x / ref := div_pos hx href
  have hK : (6931471803 / 10000000000 : ℝ) < Real.log 2 := by
    have h := Real.log_two_gt_d9
    norm_num at h ⊢
    linarith
  have hKpos : (0 : ℝ) < Real.log 2 := by linarith
  have hle1 : x / ref ≤ 1 := (div_le_one href).mpr hle
  constructor
  · rw [Int.le_floor]
    push_cast
    have hlog_lb : 1 - (x / ref)⁻¹ ≤ Real.log (x / ref) :=
      Real.one_sub_inv_le_log_of_pos hr
    rw [inv_div] at hlog_lb
    have h1 : ref / x ≤ 1 + Real.log 2 / 400 := by
      rw [div_le_iff₀ hx]
      have h2 : (6931471803 / 10000000000 : ℝ) * x ≤ Real.log 2 * x :=
        mul_le_mul_of_nonneg_right hK.le hx.le
      have expand : (1 + Real.log 2 / 400) * x = x + Real.log 2 * x / 400 := by ring
      rw [expand]
      linarith
    have hlog_ge : -(Real.log 2) / 400 ≤ Real.log (x / ref) := by linarith
    rw [← Real.log_div_log, ← mul_div_assoc, le_div_iff₀ hKpos]
    linarith
  · apply Int.floor_nonpos
    have hnp : Real.logb 2 (x / ref) ≤ 0 := Real.logb_nonpos one_lt_two hr.le hle1
    nlinarith

/-- Claim C10: the zero-cents band is one-sided.  For every positive
frequency, the classifier reports 0 cents exactly when the input is at
least the selected reference and strictly below one cent sharp of it, and
every input strictly within one cent flat of the selected reference
reports -1 cents — an input even infinitesimally flat never shows 0. -/
theorem c10_cents_zero_band (f : ℚ) (hf : 0 < f) :
    ((getNoteAndCents f).2 = 0 ↔
      ((lookupFreq (closestNote f) : ℝ) ≤ (f : ℝ) ∧
       (f : ℝ) < (lookupFreq (closestNote f) : ℝ) * (2 : ℝ) ^ ((1 : ℝ) / 1200))) ∧
    (((lookupFreq (closestNote f) : ℝ) * (2 : ℝ) ^ (-(1 : ℝ) / 1200) < (f : ℝ) →
      (f : ℝ) < (lookupFreq (closestNote f) : ℝ) → (getNoteAndCents f).2 = -1)) := by
  have hx : (0 : ℝ) < (f : ℝ) := by exact_mod_cast hf
  have href : (0 : ℝ) < ((lookupFreq (closestNote f)) : ℝ) := by
    exact_mod_cast lookupFreq_closest_pos f
  have hval : (getNoteAndCents f).2 =
      ⌊(1200 : ℝ) * Real.logb 2 ((f : ℝ) / ((lookupFreq (closestNote f)) : ℝ))⌋ := by
    simp [getNoteAndCents, not_le.mpr hf, centsOf]
  rw [hval]
  exact ⟨floor_cents_eq_zero_iff _ _ hx href,
    fun h1 h2 => floor_cents_eq_neg_one _ _ hx href h1 h2⟩

/-- Witness for C10: the claim instantiated at the concrete frequency 110. -/
theorem c10_cents_zero_band_witness :
    0 < (110 : ℚ) ∧
    (((getNoteAndCents 110).2 = 0 ↔
      ((lookupFreq (closestNote 110) : ℝ) ≤ ((110 : ℚ) : ℝ) ∧
       ((110 : ℚ) : ℝ) < (lookupFreq (closestNote 110) : ℝ) * (2 : ℝ) ^ ((1 : ℝ) / 1200))) ∧
    (((lookupFreq (closestNote 110) : ℝ) * (2 : ℝ) ^ (-(1 : ℝ) / 1200) < ((110 : ℚ) : ℝ) →
      ((110 : ℚ) : ℝ) < (lookupFreq (closestNote 110) : ℝ) →
      (getNoteAndCents 110).2 = -1))) :=
  ⟨by norm_num, c10_cents_zero_band 110 (by norm_num)⟩

/-- The selection loop evaluated at 82.41 Hz. -/
theorem closestNote_at_82410 : closestNote (8241/100) = "E2" := by
  norm_num [closestNote, selLoop, selStep, ltMinDiff, TUNING_FREQUENCIES, noteNames,
    abs_of_nonneg, abs_of_nonpos, List.foldl]

/-- The selection loop evaluated at 82.287 Hz. -/
theorem closestNote_at_82287 : closestNote (82287/1000) = "E2" := by
  norm_num [closestNote, selLoop, selStep, ltMinDiff, TUNING_FREQUENCIES, noteNames,
    abs_of_nonneg, abs_of_nonpos, List.foldl]

/-- The selection loop evaluated at 82.3239 Hz. -/
theorem closestNote_at_823239 : closestNote (823239/10000) = "E2" := by
  norm_num [closestNote, selLoop, selStep, ltMinDiff, TUNING_FREQUENCIES, noteNames,
    abs_of_nonneg, abs_of_nonpos, List.foldl]

/-- The table entry for E2. -/
theorem lookupFreq_E2 : lookupFreq "E2" = 8241/100 := rfl

/-- Cents bound for a frequency at most its selected reference and within
the quantitative closeness hypothesis: between -3 and 0 cents. -/
theorem getCents_band (f : ℚ) (h0 : 0 < f) (hle : f ≤ lookupFreq (closestNote f))
    (hclose : 400 * (lookupFreq (closestNote f) - f) ≤ (6931471803/10000000000 : ℚ) * f) :
    -3 ≤ getCents f ∧ getCents f ≤ 0 := by
  have href : 0 < lookupFreq (closestNote f) := lookupFreq_closest_pos f
  have hx : (0 : ℝ) < (f : ℝ) := by exact_mod_cast h0
  have hrefR : (0 : ℝ) < ((lookupFreq (closestNote f)) : ℝ) := by exact_mod_cast href
  have hleR : (f : ℝ) ≤ ((lookupFreq (closestNote f)) : ℝ) := by exact_mod_cast hle
  have hcloseR : 400 * (((lookupFreq (closestNote f)) : ℝ) - (f : ℝ)) ≤
      (6931471803/10000000000 : ℝ) * (f : ℝ) := by
    have h : ((400 * (lookupFreq (closestNote f) - f) : ℚ) : ℝ) ≤
        ((6931471803/10000000000 * f : ℚ) : ℝ) := by exact_mod_cast hclose
    push_cast at h
    linarith [h]
  have hval : getCents f =
      ⌊(1200 : ℝ) * Real.logb 2 ((f : ℝ) / ((lookupFreq (closestNote f)) : ℝ))⌋ := by
    simp [getCents, not_le.mpr h0, centsOf]
  rw [hval]
  exact floor_cents_band_neg3 _ _ hx hrefR hleR hcloseR

/-- The raw estimate sequence of the end-to-end scenario: a silent tick,
then 82.41 Hz, 82 Hz and 82.41 Hz again. -/
def c9ticks : List (ℕ × Option ℚ) :=
  [(0, none), (1, some (8241/100)), (2, some 82), (3, some (8241/100))]

/-- The pipeline's actual output on the scenario inputs, computed from the
code: the last smoothed value is 0.7 * 82.287 + 0.3 * 82.41 = 82.3239. -/
theorem c9run : (runTicks initState c9ticks).chartData =
    [⟨0, 0, "--"⟩, ⟨1, 8241/100, "E2"⟩, ⟨2, 82287/1000, "E2"⟩,
     ⟨3, 823239/10000, "E2"⟩] := by
  norm_num [c9ticks, runTicks, initState, tick, smoothNext, smoothingCoeff, getNote,
    closestNote, selLoop, selStep, ltMinDiff, TUNING_FREQUENCIES, noteNames,
    abs_of_nonneg, abs_of_nonpos, List.foldl]

/-- Counterexample to C9 as stated: the fourth smoothed value produced by
the pipeline on [none, 82.41, 82.0, 82.41] is 82.3239, not the 82.3671 the
claim expects (0.7 * 82.287 + 0.3 * 82.41 = 82.3239). -/
theorem c9_counterexample :
    (runTicks initState c9ticks).chartData.map HistoryEntry.frequency ≠
      [0, 8241/100, 82287/1000, 823671/10000] := by
  rw [c9run]
  norm_num

/-- Claim C9 as amended: the pipeline on raw estimates
[none, 82.41, 82.0, 82.41] with α = 0.7 yields smoothed frequencies
[0 (none), 82.41, 82.287, 82.3239], notes [placeholder, E2, E2, E2], and
cents within [-3, 0] ("near 0") for each non-zero smoothed entry, with the
exact-reference tick at exactly 0 cents. -/
theorem c9_pipeline_scenario :
    (runTicks initState c9ticks).chartData.map HistoryEntry.frequency =
      [0, 8241/100, 82287/1000, 823239/10000] ∧
    (runTicks initState c9ticks).chartData.map HistoryEntry.note =
      ["--", "E2", "E2", "E2"] ∧
    getCents (8241/100) = 0 ∧
    (-3 ≤ getCents (82287/1000) ∧ getCents (82287/1000) ≤ 0) ∧
    (-3 ≤ getCents (823239/10000) ∧ getCents (823239/10000) ≤ 0) := by
  refine ⟨by rw [c9run]; rfl, by rw [c9run]; rfl, ?_, ?_, ?_⟩
  · have hne : ¬((8241/100 : ℚ) ≤ 0) := by norm_num
    unfold getCents
    rw [if_neg hne, closestNote_at_82410, lookupFreq_E2]
    exact centsOf_self _ (by norm_num)
  · refine getCents_band _ (by norm_num) ?_ ?_ <;>
      rw [closestNote_at_82287, lookupFreq_E2] <;> norm_num
  · refine getCents_band _ (by norm_num) ?_ ?_ <;>
      rw [closestNote_at_823239, lookupFreq_E2] <;> norm_num

/-- Counterexample to C5 as stated: on a tick whose estimator throws, the
code does not degrade to the "no pitch detected" outcome with a reschedule
(that would be `Except.ok (tick s t none, true)`); the exception escapes
and the loop is never rescheduled. -/
theorem c5_counterexample :
    tickWithExc { previousPitch := 100, chartData := [] } 0 EstOutcome.exc ≠
      Except.ok (tick { previousPitch := 100, chartData := [] } 0 none, true) := by
  simp [tickWithExc]
